import Mathlib

/-!
Verification of the `wrangler` shader build-cache pipeline (`src/lib.rs`).

The source is embedded shallowly:
* `PathBuf` becomes `FPath`, a list of path components, each component a list
  of characters;
* `SystemTime` becomes `Nat` (the code only ever compares timestamps for
  equality);
* the filesystem and the shaderc collaborator become explicit oracles (`FS`,
  `Compiler`) passed to every operation: each fallible syscall the code makes
  is one observable field of `FS`;
* `Result<T, Error>` becomes `Except Error T`; an `unwrap()` on a value the
  code does not control is modelled as an explicit third outcome (`panicked`);
* the side effects of `run` (output files written, record persisted, compiler
  initialized, collaborator invocations) are collected in a `RunTrace` whose
  `result` field is exactly the source function's return value.
-/

set_option autoImplicit false

namespace Wrangler

/-- One path component (one segment between separators), as its characters. -/
abbrev Component := List Char

/-- A filesystem path (`PathBuf`), as its list of components. -/
abbrev FPath := List Component

/-- A compiled SPIR-V artifact (`CompilationArtifact`), as its bytes. -/
abbrev Artifact := List Nat

/-- `shaderc::ShaderKind`: the three kinds wrangler supports plus two of the
remaining shaderc kinds, enough to exercise the unsupported-kind branch of
`kind_ext`. -/
inductive ShaderKind
  | Vertex
  | Fragment
  | Compute
  | Geometry
  | TessControl
deriving DecidableEq

/-- The `Error` enum of `src/lib.rs` (payloads of foreign error types are
reduced to the data the code can observe). -/
inductive Error
  | UnsupportedKind (k : ShaderKind)
  | BadGlobPattern (root : FPath) (ext : Component)
  | GlobTraversal
  | IoErr
  | CompilerInit
  | Compilation (code : Nat)
  | BatchError (errs : List Error)

/-- `CompilationCandidate` of `src/lib.rs`. -/
structure CompilationCandidate where
  location : FPath
  shader_kind : ShaderKind
deriving DecidableEq

/-- `Record` of `src/lib.rs`: `HashMap<PathBuf, SystemTime>` embedded as an
association list from path to modification time. -/
structure Record where
  modified_times : List (FPath × Nat)
deriving DecidableEq

/-- Association-list lookup, embedding `HashMap::get`. -/
def lookupT : List (FPath × Nat) → FPath → Option Nat
  | [], _ => none
  | (k, v) :: rest, p => if k = p then some v else lookupT rest p

/-- Association-list insert-or-overwrite, embedding `HashMap::insert`. -/
def insertT : List (FPath × Nat) → FPath → Nat → List (FPath × Nat)
  | [], p, v => [(p, v)]
  | (k, w) :: rest, p, v =>
    if k = p then (p, v) :: rest else (k, w) :: insertT rest p v

/-- The external shaderc collaborator: an oracle for `compile_into_spirv`
(arguments: source text, kind, input path used as the identifier, entry
point). An `Except.error` is a `shaderc::Error`, reduced to a code. -/
structure Compiler where
  compile_into_spirv : List Char → ShaderKind → FPath → List Char → Except Nat Artifact

/-- The filesystem and environment a run interacts with. Each field is one
observable point of the source's interaction with the outside world:
`exists_` is `Path::exists`, `openOk` tells whether `File::open` on the
record file succeeds, `parsed` is the `rmp_serde::from_read` outcome for the
record file (`none` = corrupt), `mtime` is `fs::metadata(..)?.modified()?`
(`none` = the metadata or modified call fails), `contents` is open-plus
`read_to_string` of a source file (`none` = failure), `glob` gives the glob
matches of `root/**/*.ext` (`none` = the pattern fails to compile, entry
`Except.error` = a traversal error on that entry), `writeOk` tells whether
the `create_dir_all`/`File::create`/`write` chain targeting a path succeeds,
and `compilerInit` is the `shaderc::Compiler::new()` outcome (`none` = init
failure, which the source `unwrap`s). -/
structure FS where
  exists_ : FPath → Bool
  openOk : FPath → Bool
  parsed : FPath → Option Record
  mtime : FPath → Option Nat
  contents : FPath → Option (List Char)
  glob : FPath → Component → Option (List (Except Unit FPath))
  writeOk : FPath → Bool
  compilerInit : Option Compiler

/-- `Instructions` of `src/lib.rs` (the `&'static str` roots are embedded
already split into path components). -/
structure Instructions where
  to_compile : List ShaderKind
  search_root : FPath
  output_root : FPath
  record_path : FPath
  compilation_error_terminates : Bool

/-- On a reversed file name, split at the first dot: `some (revExt, revStem)`
where `revExt` are the (reversed) characters after the last dot of the
original name and `revStem` the (reversed) characters before it. -/
def rsplitDot : List Char → Option (List Char × List Char)
  | [] => none
  | c :: rest =>
    if c = '.' then some ([], rest)
    else
      match rsplitDot rest with
      | some (e, s) => some (c :: e, s)
      | none => none

/-- The file stem of a component, following `Path::file_stem`: everything
before the last dot, except that a name whose only dot is its first
character (a dot-file) has no extension and is its own stem. -/
def stemOf (name : Component) : Component :=
  match rsplitDot name.reverse with
  | some (_, revStem) => if revStem = [] then name else revStem.reverse
  | none => name

/-- `Path::set_extension` on a single file name: the stem followed by a dot
and the new extension (for an empty new extension, just the stem). -/
def setName (name ext : Component) : Component :=
  if ext = [] then stemOf name else stemOf name ++ '.' :: ext

/-- `Path::set_extension` on a whole path: rewrite the last component. -/
def setPathExt : FPath → Component → FPath
  | [], _ => []
  | [n], ext => [setName n ext]
  | n :: m :: rest, ext => n :: setPathExt (m :: rest) ext

/-- `Path::strip_prefix` on component lists (first argument the path, second
the prefix to remove): `some tail` on success. -/
def stripRoot : FPath → FPath → Option FPath
  | p, [] => some p
  | [], _ :: _ => none
  | c :: p, d :: pre =>
    if d = c then stripRoot p pre else none

/-- `kind_ext` of `src/lib.rs`. -/
def kind_ext : ShaderKind → Except Error Component
  | .Vertex => .ok "vert".data
  | .Fragment => .ok "frag".data
  | .Compute => .ok "comp".data
  | x => .error (.UnsupportedKind x)

/-- `deduplicate_kinds` of `src/lib.rs`: order-preserving first-occurrence
deduplication, written as the source's accumulate-and-scan loop. -/
def deduplicate_kinds (kinds : List ShaderKind) : List ShaderKind :=
  kinds.foldl (fun out kind => if kind ∈ out then out else out ++ [kind]) []

/-- The `collect::<Result<Vec<_>>>` over glob entries inside
`find_shaders_of_kind`: the first traversal error aborts the whole list. -/
def collectGlob (kind : ShaderKind) : List (Except Unit FPath) → Except Error (List CompilationCandidate)
  | [] => .ok []
  | .error _ :: _ => .error .GlobTraversal
  | .ok p :: rest =>
    match collectGlob kind rest with
    | .error e => .error e
    | .ok cs => .ok (⟨p, kind⟩ :: cs)

/-- `find_shaders_of_kind` of `src/lib.rs`: build the pattern (which needs
the kind's extension), run glob, collect the entries. -/
def find_shaders_of_kind (fs : FS) (kind : ShaderKind) (search_root : FPath) :
    Except Error (List CompilationCandidate) :=
  match kind_ext kind with
  | .error e => .error e
  | .ok ext =>
    match fs.glob search_root ext with
    | none => .error (.BadGlobPattern search_root ext)
    | some entries => collectGlob kind entries

/-- The kind loop of `find_shaders`: search each kind in order, extending the
accumulated candidate list; the first error aborts. -/
def find_shaders_list (fs : FS) (search_root : FPath) :
    List ShaderKind → Except Error (List CompilationCandidate)
  | [] => .ok []
  | kind :: rest =>
    match find_shaders_of_kind fs kind search_root with
    | .error e => .error e
    | .ok shaders =>
      match find_shaders_list fs search_root rest with
      | .error e => .error e
      | .ok more => .ok (shaders ++ more)

/-- `find_shaders` of `src/lib.rs`. -/
def find_shaders (fs : FS) (ins : Instructions) : Except Error (List CompilationCandidate) :=
  find_shaders_list fs ins.search_root (deduplicate_kinds ins.to_compile)

/-- `check_against_record` of `src/lib.rs`: keep a candidate when the record
has no entry for its path, or when the recorded time differs from the
current on-disk modification time; a metadata failure aborts the filter. -/
def check_against_record (fs : FS) :
    List CompilationCandidate → Record → Except Error (List CompilationCandidate)
  | [], _ => .ok []
  | c :: rest, record =>
    match lookupT record.modified_times c.location with
    | some last_modified =>
      match fs.mtime c.location with
      | none => .error .IoErr
      | some file_modified =>
        if last_modified ≠ file_modified then
          match check_against_record fs rest record with
          | .error e => .error e
          | .ok out => .ok (c :: out)
        else
          check_against_record fs rest record
    | none =>
      match check_against_record fs rest record with
      | .error e => .error e
      | .ok out => .ok (c :: out)

/-- `CompileOutput` of `src/lib.rs`. -/
structure CompileOutput where
  location : FPath
  shader_kind : ShaderKind
  artifact : Artifact
deriving DecidableEq

/-- The per-candidate body of the loop in `compile`: read the source file,
invoke the collaborator with entry point "main", package the artifact. -/
def compileOne (fs : FS) (compiler : Compiler) (c : CompilationCandidate) :
    Except Error CompileOutput :=
  match fs.contents c.location with
  | none => .error .IoErr
  | some contents =>
    match compiler.compile_into_spirv contents c.shader_kind c.location "main".data with
    | .error e => .error (.Compilation e)
    | .ok artifact => .ok ⟨c.location, c.shader_kind, artifact⟩

/-- `compile` of `src/lib.rs`: `Compiler::new().unwrap()` (a `none` init is a
panic, modelled as the `none` result), then one outcome per candidate in
order. -/
def compile (fs : FS) (to_compile : List CompilationCandidate) :
    Option (List (Except Error CompileOutput)) :=
  match fs.compilerInit with
  | none => none
  | some compiler => some (to_compile.map (compileOne fs compiler))

/-- Number of `compile_into_spirv` invocations `compile` performs on a
candidate list: one per candidate whose source read succeeds (after a read
failure the collaborator is not invoked for that candidate). -/
def invocationCount (fs : FS) (cands : List CompilationCandidate) : Nat :=
  (cands.filter (fun c => (fs.contents c.location).isSome)).length

/-- Result of `write_output`: `panicked` models the `unwrap` on
`strip_prefix` failing; `ok` carries the destination path written. -/
inductive WriteRes
  | panicked
  | err (e : Error)
  | ok (dest : FPath)

/-- `write_output` of `src/lib.rs`: destination = output root joined with the
candidate path relative to the search root, extension replaced by
`spv_<kind ext>`; any directory-creation/create/write failure is an error. -/
def write_output (fs : FS) (ins : Instructions) (out : CompileOutput) : WriteRes :=
  match kind_ext out.shader_kind with
  | .error e => .err e
  | .ok ke =>
    match stripRoot out.location ins.search_root with
    | none => .panicked
    | some tail =>
      let dest := setPathExt (ins.output_root ++ tail) ("spv_".data ++ ke)
      if fs.writeOk dest then .ok dest else .err .IoErr

/-- `Record::try_load` of `src/lib.rs`: a missing file or a parse failure
falls through to the empty record, but a failing `File::open` on an existing
file propagates as an error. -/
def Record.try_load (fs : FS) (ins : Instructions) : Except Error Record :=
  if fs.exists_ ins.record_path then
    if fs.openOk ins.record_path then
      match fs.parsed ins.record_path with
      | some record => .ok record
      | none => .ok ⟨[]⟩
    else .error .IoErr
  else .ok ⟨[]⟩

/-- `Record::log` of `src/lib.rs`: read the file's current modification time
and insert it under the file's path. -/
def Record.log (fs : FS) (r : Record) (file : FPath) : Except Error Record :=
  match fs.mtime file with
  | none => .error .IoErr
  | some modified => .ok ⟨insertT r.modified_times file modified⟩

/-- `Record::write` of `src/lib.rs`: create the parent directories and the
file; a failure of either is an error. -/
def Record.write (fs : FS) (ins : Instructions) (_r : Record) : Except Error Unit :=
  if fs.writeOk ins.record_path then .ok () else .error .IoErr

/-- Result of the per-success loop in `run` (lines 220-230 of the source):
`ok` carries the output destinations written (in order) and the updated
in-memory record; `err` is a propagated `write_output`/`Record::log` failure
(with the destinations written before the abort); `panicked` models a
`write_output` panic. -/
inductive LoopRes
  | ok (written : List FPath) (record : Record)
  | err (e : Error) (written : List FPath) (record : Record)
  | panicked (written : List FPath) (record : Record)

/-- The per-success loop of `run`: for each `Ok` outcome, write the output
(`?`) then log the path into the record (`?`); `Err` outcomes are skipped
(the source's TODO branch). The first failure aborts the loop. -/
def processResults (fs : FS) (ins : Instructions) :
    List (Except Error CompileOutput) → Record → LoopRes
  | [], record => .ok [] record
  | .error _ :: rest, record => processResults fs ins rest record
  | .ok output :: rest, record =>
    match write_output fs ins output with
    | .panicked => .panicked [] record
    | .err e => .err e [] record
    | .ok dest =>
      match Record.log fs record output.location with
      | .error e => .err e [dest] record
      | .ok record2 =>
        match processResults fs ins rest record2 with
        | .ok w r => .ok (dest :: w) r
        | .err e w r => .err e (dest :: w) r
        | .panicked w r => .panicked (dest :: w) r

/-- The `filter_map(Result::err)` aggregation at the end of `run`. -/
def collectErrors : List (Except Error CompileOutput) → List Error
  | [] => []
  | .error e :: rest => e :: collectErrors rest
  | .ok _ :: rest => collectErrors rest

/-- The locations of the `Ok` outcomes of a result list, in order: exactly
the paths `run`'s success loop logs into the record when nothing fails. -/
def okLocs : List (Except Error CompileOutput) → List FPath
  | [] => []
  | .error _ :: rest => okLocs rest
  | .ok o :: rest => o.location :: okLocs rest

/-- The value `run` returns: `Ok(())`, `Err(e)`, or a panic reached through
one of the source's `unwrap`s. -/
inductive RunOutcome
  | ok
  | err (e : Error)
  | panicked

/-- The observable effects of one `run`: its return value, the per-candidate
outcome list produced by `compile` (`none` when `compile` never ran or
panicked during init), the output destinations written in order, the record
persisted to disk by `Record::write` (`none` when that call never ran or
failed), the stale set handed to `compile`, whether collaborator
initialization was attempted, and the number of collaborator invocations. -/
structure RunTrace where
  result : RunOutcome
  outcomes : Option (List (Except Error CompileOutput))
  written : List FPath
  recordPersisted : Option Record
  toCompile : List CompilationCandidate
  inited : Bool
  invocations : Nat

/-- Trace of a run that fails before the stale set is compiled. -/
def errTrace (e : Error) : RunTrace :=
  ⟨.err e, none, [], none, [], false, 0⟩

/-- Trace of the short-circuit return for an empty stale set. -/
def shortTrace : RunTrace :=
  ⟨.ok, none, [], none, [], false, 0⟩

/-- The tail of `run` from `compile` onwards, for a non-empty stale set:
initialize the collaborator (`unwrap`), compile every candidate, run the
per-success loop, persist the record, aggregate errors. -/
def runMain (fs : FS) (ins : Instructions) (record : Record)
    (to_compile : List CompilationCandidate) : RunTrace :=
  match fs.compilerInit with
  | none => ⟨.panicked, none, [], none, to_compile, true, 0⟩
  | some compiler =>
    let results := to_compile.map (compileOne fs compiler)
    let inv := invocationCount fs to_compile
    match processResults fs ins results record with
    | .panicked w _ => ⟨.panicked, some results, w, none, to_compile, true, inv⟩
    | .err e w _ => ⟨.err e, some results, w, none, to_compile, true, inv⟩
    | .ok w record2 =>
      match Record.write fs ins record2 with
      | .error e => ⟨.err e, some results, w, none, to_compile, true, inv⟩
      | .ok _ =>
        match collectErrors results with
        | [] => ⟨.ok, some results, w, some record2, to_compile, true, inv⟩
        | e :: es =>
          if ins.compilation_error_terminates then
            ⟨.err (.BatchError (e :: es)), some results, w, some record2, to_compile, true, inv⟩
          else
            ⟨.ok, some results, w, some record2, to_compile, true, inv⟩

/-- `run` of `src/lib.rs`. -/
def run (fs : FS) (ins : Instructions) : RunTrace :=
  match find_shaders fs ins with
  | .error e => errTrace e
  | .ok compile_candidates =>
    match Record.try_load fs ins with
    | .error e => errTrace e
    | .ok record =>
      match check_against_record fs compile_candidates record with
      | .error e => errTrace e
      | .ok to_compile =>
        match to_compile with
        | [] => shortTrace
        | c :: rest => runMain fs ins record (c :: rest)

/-- The filesystem as the next run sees it after a run persisted `r` as the
record file: the record file now exists, opens, and parses back to exactly
`r` (the record format round-trips). Source files are untouched — output
writes target destinations carrying the `spv_`-prefixed output extension,
which the discovery patterns (plain `vert`/`frag`/`comp`) never match — so
`mtime`, `contents` and `glob` are unchanged. -/
def afterRun (fs : FS) (ins : Instructions) (r : Record) : FS :=
  { fs with
    exists_ := fun p => if p = ins.record_path then true else fs.exists_ p
    openOk := fun p => if p = ins.record_path then true else fs.openOk p
    parsed := fun p => if p = ins.record_path then some r else fs.parsed p }

/-- Run the pipeline twice with no source changes in between: the second run
sees the record the first run persisted (if any). -/
def secondRun (fs : FS) (ins : Instructions) : RunTrace :=
  match (run fs ins).recordPersisted with
  | some r => run (afterRun fs ins r) ins
  | none => run fs ins

/-- The kinds `kind_ext` maps to an extension. -/
def IsSupported (k : ShaderKind) : Prop :=
  k = .Vertex ∨ k = .Fragment ∨ k = .Compute

instance (k : ShaderKind) : Decidable (IsSupported k) := by
  unfold IsSupported; infer_instance

/-- A filesystem whose glob behaves like the real library under this root:
every pattern compiles and traversal reports no errors. -/
def globClean (fs : FS) (root : FPath) : Prop :=
  ∀ ext, ∃ entries, fs.glob root ext = some entries ∧ ∀ x ∈ entries, ∃ p, x = Except.ok p

/-- The staleness condition of the specification for one candidate: no
record entry for its path, or a current modification time that differs from
the recorded one in either direction. -/
def staleCond (fs : FS) (record : Record) (c : CompilationCandidate) : Prop :=
  lookupT record.modified_times c.location = none ∨
    ∃ t t', lookupT record.modified_times c.location = some t ∧
      fs.mtime c.location = some t' ∧ t ≠ t'

/-! ## Concrete fixtures

Small concrete filesystems and instructions used by the witness and
counterexample theorems below. -/

/-- The fixture search root, the single-component path "s". -/
def rootW : FPath := ["s".data]

/-- The fixture output root "o". -/
def outW : FPath := ["o".data]

/-- The fixture record path "r". -/
def recW : FPath := ["r".data]

/-- Source file "s/a.vert". -/
def aVert : FPath := ["s".data, "a.vert".data]

/-- Source file "s/b.vert". -/
def bVert : FPath := ["s".data, "b.vert".data]

/-- Output destination "o/a.spv_vert". -/
def destA : FPath := ["o".data, "a.spv_vert".data]

/-- Output destination "o/b.spv_vert". -/
def destB : FPath := ["o".data, "b.spv_vert".data]

/-- Output destination "o/a.spv_frag". -/
def destAF : FPath := ["o".data, "a.spv_frag".data]

/-- Vertex candidate for "s/a.vert". -/
def candA : CompilationCandidate := ⟨aVert, .Vertex⟩

/-- Vertex candidate for "s/b.vert". -/
def candB : CompilationCandidate := ⟨bVert, .Vertex⟩

/-- The compile output produced for "s/a.vert" by the fixture collaborator. -/
def outA : CompileOutput := ⟨aVert, .Vertex, [1]⟩

/-- A collaborator that compiles every source to the artifact `[1]`. -/
def compOk : Compiler := ⟨fun _ _ _ _ => .ok [1]⟩

/-- A collaborator that rejects every source with error code 7. -/
def compFail : Compiler := ⟨fun _ _ _ _ => .error 7⟩

/-- Base fixture filesystem: no record file, empty globs, failing source
reads, succeeding writes, failing collaborator init. -/
def fsBase : FS where
  exists_ := fun _ => false
  openOk := fun _ => true
  parsed := fun _ => none
  mtime := fun _ => none
  contents := fun _ => none
  glob := fun _ _ => some []
  writeOk := fun _ => true
  compilerInit := none

/-- Fixture instructions: compile Vertex shaders from "s" into "o", record
file "r", best-effort failure policy. -/
def insW : Instructions := ⟨[.Vertex], rootW, outW, recW, false⟩

/-- Instructions that also request the unsupported Geometry kind. -/
def ins8 : Instructions := ⟨[.Vertex, .Geometry], rootW, outW, recW, false⟩

/-- Filesystem with stale sources "s/a.vert" and "s/b.vert", a working
collaborator, and an output write that fails exactly at "o/b.spv_vert". -/
def fs1 : FS :=
  { fsBase with
    glob := fun root ext =>
      if root = rootW ∧ ext = "vert".data then some [.ok aVert, .ok bVert] else some []
    mtime := fun p => if p = aVert ∨ p = bVert then some 1 else none
    contents := fun p => if p = aVert ∨ p = bVert then some "x".data else none
    writeOk := fun p => if p = destB then false else true
    compilerInit := some compOk }

/-- Filesystem whose record file exists but cannot be opened. -/
def fs3 : FS :=
  { fsBase with
    exists_ := fun p => if p = recW then true else false
    openOk := fun _ => false }

/-- Filesystem with the single stale source "s/a.vert" and a collaborator
that fails on it. -/
def fs6 : FS :=
  { fsBase with
    glob := fun root ext =>
      if root = rootW ∧ ext = "vert".data then some [.ok aVert] else some []
    mtime := fun p => if p = aVert then some 1 else none
    contents := fun p => if p = aVert then some "x".data else none
    compilerInit := some compFail }

/-- Like `fs6` but with a working collaborator. -/
def fsW6 : FS := { fs6 with compilerInit := some compOk }

/-- Like `fs6` but with a failing collaborator initialization. -/
def fs9 : FS := { fs6 with compilerInit := none }

/-- A record holding time 1 for both fixture sources. -/
def recordW : Record := ⟨[(aVert, 1), (bVert, 1)]⟩

/-- Filesystem where "s/a.vert" still has time 1 but "s/b.vert" now has
time 2 (so only the latter is stale against `recordW`). -/
def fsChk : FS :=
  { fsBase with
    mtime := fun p => if p = aVert then some 1 else if p = bVert then some 2 else none }

/-! ## Helper lemmas -/

theorem lookupT_insertT_self (l : List (FPath × Nat)) (k : FPath) (v : Nat) :
    lookupT (insertT l k v) k = some v := by
  induction l with
  | nil => simp [insertT, lookupT]
  | cons kv rest ih =>
    obtain ⟨k0, v0⟩ := kv
    by_cases hk : k0 = k
    · simp [insertT, hk, lookupT]
    · simp [insertT, hk, lookupT, ih]

theorem lookupT_insertT_ne (l : List (FPath × Nat)) (k p : FPath) (v : Nat)
    (h : p ≠ k) : lookupT (insertT l k v) p = lookupT l p := by
  induction l with
  | nil => simp [insertT, lookupT, Ne.symm h]
  | cons kv rest ih =>
    obtain ⟨k0, v0⟩ := kv
    by_cases hk : k0 = k
    · subst hk
      simp [insertT, lookupT, Ne.symm h]
    · simp [insertT, hk, lookupT, ih]

theorem check_sublist_aux (fs : FS) (record : Record) :
    ∀ (cands out : List CompilationCandidate),
      check_against_record fs cands record = Except.ok out → List.Sublist out cands := by
  intro cands
  induction cands with
  | nil =>
    intro out h
    unfold check_against_record at h
    cases h
    exact List.nil_sublist _
  | cons c rest ih =>
    intro out h
    unfold check_against_record at h
    cases hl : lookupT record.modified_times c.location with
    | some last_modified =>
      simp only [hl] at h
      cases hm : fs.mtime c.location with
      | none => simp only [hm] at h; cases h
      | some file_modified =>
        simp only [hm] at h
        by_cases hne : last_modified = file_modified
        · simp only [hne, ne_eq, not_true_eq_false, if_false] at h
          exact List.Sublist.cons c (ih out h)
        · simp only [ne_eq, hne, not_false_eq_true, if_true] at h
          cases hr : check_against_record fs rest record with
          | error e => simp only [hr] at h; cases h
          | ok out0 =>
            simp only [hr] at h
            cases h
            exact List.Sublist.cons₂ c (ih out0 hr)
    | none =>
      simp only [hl] at h
      cases hr : check_against_record fs rest record with
      | error e => simp only [hr] at h; cases h
      | ok out0 =>
        simp only [hr] at h
        cases h
        exact List.Sublist.cons₂ c (ih out0 hr)

theorem check_fresh_of_not_mem (fs : FS) (record : Record) :
    ∀ (cands out : List CompilationCandidate),
      check_against_record fs cands record = Except.ok out →
      ∀ c ∈ cands, c ∉ out →
        ∃ t, lookupT record.modified_times c.location = some t ∧
          fs.mtime c.location = some t := by
  intro cands
  induction cands with
  | nil => intro out _ c hc; cases hc
  | cons c0 rest ih =>
    intro out h c hc hnot
    unfold check_against_record at h
    cases hl : lookupT record.modified_times c0.location with
    | some last_modified =>
      simp only [hl] at h
      cases hm : fs.mtime c0.location with
      | none => simp only [hm] at h; cases h
      | some file_modified =>
        simp only [hm] at h
        by_cases hne : last_modified = file_modified
        · simp only [hne, ne_eq, not_true_eq_false, if_false] at h
          rcases List.mem_cons.mp hc with hc0 | hcr
          · subst hc0; exact ⟨file_modified, hne ▸ hl, hm⟩
          · exact ih out h c hcr hnot
        · simp only [ne_eq, hne, not_false_eq_true, if_true] at h
          cases hr : check_against_record fs rest record with
          | error e => simp only [hr] at h; cases h
          | ok out0 =>
            simp only [hr] at h
            cases h
            rcases List.mem_cons.mp hc with hc0 | hcr
            · exact absurd (hc0 ▸ List.mem_cons_self c0 out0) hnot
            · exact ih out0 hr c hcr (fun hm0 => hnot (List.mem_cons_of_mem c0 hm0))
    | none =>
      simp only [hl] at h
      cases hr : check_against_record fs rest record with
      | error e => simp only [hr] at h; cases h
      | ok out0 =>
        simp only [hr] at h
        cases h
        rcases List.mem_cons.mp hc with hc0 | hcr
        · exact absurd (hc0 ▸ List.mem_cons_self c0 out0) hnot
        · exact ih out0 hr c hcr (fun hm0 => hnot (List.mem_cons_of_mem c0 hm0))

theorem check_nil_of_fresh (fs : FS) (record : Record) :
    ∀ cands : List CompilationCandidate,
      (∀ c ∈ cands, ∃ t, lookupT record.modified_times c.location = some t ∧
        fs.mtime c.location = some t) →
      check_against_record fs cands record = Except.ok [] := by
  intro cands
  induction cands with
  | nil => intro _; rfl
  | cons c0 rest ih =>
    intro hfresh
    obtain ⟨t, hl, hm⟩ := hfresh c0 (List.mem_cons_self c0 rest)
    unfold check_against_record
    simp only [hl, hm, ne_eq, not_true_eq_false, if_false]
    exact ih (fun c hc => hfresh c (List.mem_cons_of_mem c0 hc))

theorem check_mem_iff_aux (fs : FS) (record : Record) :
    ∀ (cands out : List CompilationCandidate),
      check_against_record fs cands record = Except.ok out →
      ∀ c ∈ cands, (c ∈ out ↔ staleCond fs record c) := by
  intro cands
  induction cands with
  | nil => intro out _ c hc; cases hc
  | cons c0 rest ih =>
    intro out h c hc
    unfold check_against_record at h
    cases hl : lookupT record.modified_times c0.location with
    | some last_modified =>
      simp only [hl] at h
      cases hm : fs.mtime c0.location with
      | none => simp only [hm] at h; cases h
      | some file_modified =>
        simp only [hm] at h
        by_cases hne : last_modified = file_modified
        · simp only [hne, ne_eq, not_true_eq_false, if_false] at h
          rcases List.mem_cons.mp hc with hc0 | hcr
          · subst hc0
            constructor
            · intro hmem
              have hcr : c ∈ rest := (check_sublist_aux fs record rest out h).subset hmem
              exact (ih out h c hcr).mp hmem
            · intro hstale
              rcases hstale with hnone | ⟨t, t', ht, ht', hne2⟩
              · rw [hl] at hnone; cases hnone
              · rw [hl] at ht; rw [hm] at ht'
                cases ht; cases ht'
                exact absurd hne.symm (hne ▸ hne2)
          · exact ih out h c hcr
        · simp only [ne_eq, hne, not_false_eq_true, if_true] at h
          cases hr : check_against_record fs rest record with
          | error e => simp only [hr] at h; cases h
          | ok out0 =>
            simp only [hr] at h
            cases h
            rcases List.mem_cons.mp hc with hc0 | hcr
            · subst hc0
              simp only [List.mem_cons, true_or, true_iff]
              exact Or.inr ⟨last_modified, file_modified, hl, hm, hne⟩
            · constructor
              · intro hmem
                rcases List.mem_cons.mp hmem with hc0 | hm0
                · subst hc0
                  exact Or.inr ⟨last_modified, file_modified, hl, hm, hne⟩
                · exact (ih out0 hr c hcr).mp hm0
              · intro hstale
                exact List.mem_cons_of_mem c0 ((ih out0 hr c hcr).mpr hstale)
    | none =>
      simp only [hl] at h
      cases hr : check_against_record fs rest record with
      | error e => simp only [hr] at h; cases h
      | ok out0 =>
        simp only [hr] at h
        cases h
        rcases List.mem_cons.mp hc with hc0 | hcr
        · subst hc0
          simp only [List.mem_cons, true_or, true_iff]
          exact Or.inl hl
        · constructor
          · intro hmem
            rcases List.mem_cons.mp hmem with hc0 | hm0
            · subst hc0; exact Or.inl hl
            · exact (ih out0 hr c hcr).mp hm0
          · intro hstale
            exact List.mem_cons_of_mem c0 ((ih out0 hr c hcr).mpr hstale)

theorem compileOne_ok_location (fs : FS) (compiler : Compiler) (c : CompilationCandidate)
    (o : CompileOutput) (h : compileOne fs compiler c = Except.ok o) :
    o.location = c.location := by
  unfold compileOne at h
  cases hc : fs.contents c.location with
  | none => simp only [hc] at h; cases h
  | some s =>
    simp only [hc] at h
    cases hcc : compiler.compile_into_spirv s c.shader_kind c.location "main".data with
    | error e => simp only [hcc] at h; cases h
    | ok a => simp only [hcc] at h; cases h; rfl

theorem collectErrors_nil :
    ∀ results : List (Except Error CompileOutput),
      (∀ x ∈ results, ∃ o, x = Except.ok o) → collectErrors results = [] := by
  intro results
  induction results with
  | nil => intro _; rfl
  | cons x rest ih =>
    intro h
    cases x with
    | error e =>
      obtain ⟨o, ho⟩ := h _ (List.mem_cons_self _ _)
      cases ho
    | ok o =>
      show collectErrors rest = []
      exact ih (fun y hy => h y (List.mem_cons_of_mem _ hy))

theorem processResults_lookup_notin (fs : FS) (ins : Instructions) :
    ∀ (results : List (Except Error CompileOutput)) (record : Record)
      (w : List FPath) (r2 : Record),
      processResults fs ins results record = LoopRes.ok w r2 →
      ∀ p, p ∉ okLocs results →
        lookupT r2.modified_times p = lookupT record.modified_times p := by
  intro results
  induction results with
  | nil =>
    intro record w r2 h p _
    unfold processResults at h
    cases h
    rfl
  | cons x rest ih =>
    intro record w r2 h p hp
    cases x with
    | error e =>
      unfold processResults at h
      exact ih record w r2 h p (by simpa [okLocs] using hp)
    | ok output =>
      simp only [okLocs, List.mem_cons, not_or] at hp
      obtain ⟨hne, hp2⟩ := hp
      unfold processResults at h
      cases hw : write_output fs ins output with
      | panicked => simp only [hw] at h; cases h
      | err e => simp only [hw] at h; cases h
      | ok dest =>
        simp only [hw] at h
        cases hlog : Record.log fs record output.location with
        | error e => simp only [hlog] at h; cases h
        | ok record2 =>
          simp only [hlog] at h
          cases hrest : processResults fs ins rest record2 with
          | ok w0 r0 =>
            simp only [hrest] at h
            injection h with hw1 hr1
            subst hr1
            have h1 := ih record2 w0 r0 hrest p hp2
            unfold Record.log at hlog
            cases hmt : fs.mtime output.location with
            | none => rw [hmt] at hlog; cases hlog
            | some t =>
              rw [hmt] at hlog
              cases hlog
              rw [h1]
              exact lookupT_insertT_ne _ _ _ _ hne
          | err e w0 r0 => simp only [hrest] at h; cases h
          | panicked w0 r0 => simp only [hrest] at h; cases h

theorem processResults_lookup_in (fs : FS) (ins : Instructions) :
    ∀ (results : List (Except Error CompileOutput)) (record : Record)
      (w : List FPath) (r2 : Record),
      processResults fs ins results record = LoopRes.ok w r2 →
      ∀ p ∈ okLocs results,
        ∃ t, fs.mtime p = some t ∧ lookupT r2.modified_times p = some t := by
  intro results
  induction results with
  | nil => intro record w r2 _ p hp; cases hp
  | cons x rest ih =>
    intro record w r2 h p hp
    cases x with
    | error e =>
      unfold processResults at h
      exact ih record w r2 h p (by simpa [okLocs] using hp)
    | ok output =>
      simp only [okLocs, List.mem_cons] at hp
      unfold processResults at h
      cases hw : write_output fs ins output with
      | panicked => simp only [hw] at h; cases h
      | err e => simp only [hw] at h; cases h
      | ok dest =>
        simp only [hw] at h
        cases hlog : Record.log fs record output.location with
        | error e => simp only [hlog] at h; cases h
        | ok record2 =>
          simp only [hlog] at h
          cases hrest : processResults fs ins rest record2 with
          | ok w0 r0 =>
            simp only [hrest] at h
            injection h with hw1 hr1
            subst hr1
            by_cases hpr : p ∈ okLocs rest
            · exact ih record2 w0 r0 hrest p hpr
            · have hpl : p = output.location := by
                rcases hp with hpl | hpr2
                · exact hpl
                · exact absurd hpr2 hpr
              unfold Record.log at hlog
              cases hmt : fs.mtime output.location with
              | none => rw [hmt] at hlog; cases hlog
              | some t =>
                rw [hmt] at hlog
                cases hlog
                refine ⟨t, by rw [hpl]; exact hmt, ?_⟩
                rw [processResults_lookup_notin fs ins rest _ w0 r0 hrest p hpr, hpl]
                exact lookupT_insertT_self _ _ _
          | err e w0 r0 => simp only [hrest] at h; cases h
          | panicked w0 r0 => simp only [hrest] at h; cases h

theorem mem_okLocs_of_all_ok (fs : FS) (compiler : Compiler) :
    ∀ tc : List CompilationCandidate,
      (∀ x ∈ tc.map (compileOne fs compiler), ∃ o, x = Except.ok o) →
      ∀ c ∈ tc, c.location ∈ okLocs (tc.map (compileOne fs compiler)) := by
  intro tc
  induction tc with
  | nil => intro _ c hc; cases hc
  | cons c0 rest ih =>
    intro hall c hc
    have hmem0 : compileOne fs compiler c0 ∈ (c0 :: rest).map (compileOne fs compiler) := by
      rw [List.map_cons]; exact List.mem_cons_self _ _
    have hall2 : ∀ x ∈ rest.map (compileOne fs compiler), ∃ o, x = Except.ok o :=
      fun y hy => hall y (by rw [List.map_cons]; exact List.mem_cons_of_mem _ hy)
    obtain ⟨o, ho⟩ := hall _ hmem0
    rcases List.mem_cons.mp hc with hc0 | hcr
    · subst hc0
      rw [List.map_cons, ho]
      show c.location ∈ o.location :: okLocs (rest.map (compileOne fs compiler))
      exact List.mem_cons.mpr (Or.inl (compileOne_ok_location fs compiler c o ho).symm)
    · rw [List.map_cons, ho]
      show c.location ∈ o.location :: okLocs (rest.map (compileOne fs compiler))
      exact List.mem_cons_of_mem _ (ih hall2 c hcr)

theorem find_shaders_of_kind_glob_eq (fs1 fs2 : FS) (h : fs1.glob = fs2.glob)
    (kind : ShaderKind) (root : FPath) :
    find_shaders_of_kind fs1 kind root = find_shaders_of_kind fs2 kind root := by
  unfold find_shaders_of_kind
  rw [h]

theorem find_shaders_list_glob_eq (fs1 fs2 : FS) (h : fs1.glob = fs2.glob) (root : FPath) :
    ∀ kinds : List ShaderKind,
      find_shaders_list fs1 root kinds = find_shaders_list fs2 root kinds := by
  intro kinds
  induction kinds with
  | nil => rfl
  | cons k rest ih =>
    unfold find_shaders_list
    rw [find_shaders_of_kind_glob_eq fs1 fs2 h, ih]

theorem find_shaders_glob_eq (fs1 fs2 : FS) (h : fs1.glob = fs2.glob) (ins : Instructions) :
    find_shaders fs1 ins = find_shaders fs2 ins :=
  find_shaders_list_glob_eq fs1 fs2 h ins.search_root (deduplicate_kinds ins.to_compile)

theorem check_mtime_eq (fs1 fs2 : FS) (h : fs1.mtime = fs2.mtime) (record : Record) :
    ∀ cands : List CompilationCandidate,
      check_against_record fs1 cands record = check_against_record fs2 cands record := by
  intro cands
  induction cands with
  | nil => rfl
  | cons c rest ih =>
    unfold check_against_record
    rw [h, ih]

theorem mem_dedup_foldl (k : ShaderKind) :
    ∀ (l acc : List ShaderKind), k ∈ acc ∨ k ∈ l →
      k ∈ l.foldl (fun out kind => if kind ∈ out then out else out ++ [kind]) acc := by
  intro l
  induction l with
  | nil =>
    intro acc h
    rcases h with h | h
    · simpa using h
    · cases h
  | cons a t ih =>
    intro acc h
    rw [List.foldl_cons]
    apply ih
    by_cases ha : a ∈ acc
    · simp only [ha, if_true]
      rcases h with h | h
      · exact Or.inl h
      · rcases List.mem_cons.mp h with h2 | h2
        · exact Or.inl (h2 ▸ ha)
        · exact Or.inr h2
    · simp only [ha, if_false]
      rcases h with h | h
      · exact Or.inl (List.mem_append_left _ h)
      · rcases List.mem_cons.mp h with h2 | h2
        · exact Or.inl (List.mem_append_right _ (h2 ▸ List.mem_singleton_self a))
        · exact Or.inr h2

theorem mem_deduplicate_kinds (k : ShaderKind) (l : List ShaderKind) (h : k ∈ l) :
    k ∈ deduplicate_kinds l :=
  mem_dedup_foldl k l [] (Or.inr h)

theorem kind_ext_unsupported (k : ShaderKind) (h : ¬IsSupported k) :
    kind_ext k = Except.error (Error.UnsupportedKind k) := by
  cases k <;> simp [IsSupported] at h ⊢ <;> rfl

theorem kind_ext_supported (k : ShaderKind) (h : IsSupported k) :
    ∃ ext, kind_ext k = Except.ok ext := by
  rcases h with h | h | h <;> subst h <;> exact ⟨_, rfl⟩

theorem collectGlob_ok (kind : ShaderKind) :
    ∀ entries : List (Except Unit FPath),
      (∀ x ∈ entries, ∃ p, x = Except.ok p) →
      ∃ cs, collectGlob kind entries = Except.ok cs := by
  intro entries
  induction entries with
  | nil => intro _; exact ⟨[], rfl⟩
  | cons x rest ih =>
    intro h
    obtain ⟨p, hp⟩ := h x (List.mem_cons_self _ _)
    subst hp
    obtain ⟨cs, hcs⟩ := ih (fun y hy => h y (List.mem_cons_of_mem _ hy))
    exact ⟨⟨p, kind⟩ :: cs, by unfold collectGlob; rw [hcs]⟩

theorem find_shaders_of_kind_ok (fs : FS) (root : FPath) (kind : ShaderKind)
    (hclean : globClean fs root) (hsup : IsSupported kind) :
    ∃ cs, find_shaders_of_kind fs kind root = Except.ok cs := by
  obtain ⟨ext, hext⟩ := kind_ext_supported kind hsup
  obtain ⟨entries, hglob, hok⟩ := hclean ext
  obtain ⟨cs, hcs⟩ := collectGlob_ok kind entries hok
  refine ⟨cs, ?_⟩
  unfold find_shaders_of_kind
  simp only [hext, hglob]
  exact hcs

theorem find_shaders_list_unsupported (fs : FS) (root : FPath)
    (hclean : globClean fs root) :
    ∀ kinds : List ShaderKind, (∃ k ∈ kinds, ¬IsSupported k) →
      ∃ k2, ¬IsSupported k2 ∧
        find_shaders_list fs root kinds = Except.error (Error.UnsupportedKind k2) := by
  intro kinds
  induction kinds with
  | nil => intro h; obtain ⟨k, hk, _⟩ := h; cases hk
  | cons a rest ih =>
    intro h
    by_cases hsup : IsSupported a
    · obtain ⟨cs, hcs⟩ := find_shaders_of_kind_ok fs root a hclean hsup
      have hrest : ∃ k ∈ rest, ¬IsSupported k := by
        obtain ⟨k, hk, hns⟩ := h
        rcases List.mem_cons.mp hk with hk0 | hk0
        · exact absurd (hk0 ▸ hsup) hns
        · exact ⟨k, hk0, hns⟩
      obtain ⟨k2, hk2, hfind⟩ := ih hrest
      refine ⟨k2, hk2, ?_⟩
      unfold find_shaders_list
      rw [hcs, hfind]
    · refine ⟨a, hsup, ?_⟩
      simp [find_shaders_list, find_shaders_of_kind, kind_ext_unsupported a hsup]

theorem setName_ext_inj (n e1 e2 : Component) (h1 : e1 ≠ []) (h2 : e2 ≠ [])
    (h : setName n e1 = setName n e2) : e1 = e2 := by
  unfold setName at h
  rw [if_neg h1, if_neg h2] at h
  have h3 := List.append_cancel_left h
  exact List.cons_injective h3

theorem setPathExt_ext_inj :
    ∀ (p : FPath) (e1 e2 : Component), p ≠ [] → e1 ≠ [] → e2 ≠ [] →
      setPathExt p e1 = setPathExt p e2 → e1 = e2 := by
  intro p
  induction p with
  | nil => intro e1 e2 hp _ _ _; exact absurd rfl hp
  | cons n rest ih =>
    intro e1 e2 _ h1 h2 h
    cases rest with
    | nil =>
      unfold setPathExt at h
      injection h with h3 _
      exact setName_ext_inj n e1 e2 h1 h2 h3
    | cons m rest2 =>
      unfold setPathExt at h
      injection h with _ h3
      exact ih e1 e2 (by simp) h1 h2 h3

theorem stripRoot_eq_append :
    ∀ (p pre tail : FPath), stripRoot p pre = some tail → p = pre ++ tail := by
  intro p pre
  induction pre generalizing p with
  | nil =>
    intro tail h
    simp only [stripRoot] at h
    cases h
    rfl
  | cons d pre2 ih =>
    intro tail h
    cases p with
    | nil => unfold stripRoot at h; cases h
    | cons c p2 =>
      unfold stripRoot at h
      by_cases hdc : d = c
      · rw [if_pos hdc] at h
        rw [List.cons_append, hdc, ih p2 tail h]
      · rw [if_neg hdc] at h
        cases h

/-! ### Equation lemmas for `run` -/

theorem run_find_err (fs : FS) (ins : Instructions) (e : Error)
    (h : find_shaders fs ins = Except.error e) : run fs ins = errTrace e := by
  unfold run
  rw [h]

theorem run_load_err (fs : FS) (ins : Instructions) (e : Error)
    (cands : List CompilationCandidate)
    (hf : find_shaders fs ins = Except.ok cands)
    (h : Record.try_load fs ins = Except.error e) : run fs ins = errTrace e := by
  unfold run
  simp only [hf, h]

theorem run_check_err (fs : FS) (ins : Instructions) (e : Error)
    (cands : List CompilationCandidate) (record : Record)
    (hf : find_shaders fs ins = Except.ok cands)
    (hl : Record.try_load fs ins = Except.ok record)
    (h : check_against_record fs cands record = Except.error e) :
    run fs ins = errTrace e := by
  unfold run
  simp only [hf, hl, h]

theorem run_check_empty (fs : FS) (ins : Instructions)
    (cands : List CompilationCandidate) (record : Record)
    (hf : find_shaders fs ins = Except.ok cands)
    (hl : Record.try_load fs ins = Except.ok record)
    (h : check_against_record fs cands record = Except.ok []) :
    run fs ins = shortTrace := by
  unfold run
  simp only [hf, hl, h]

theorem run_main_eq (fs : FS) (ins : Instructions)
    (cands : List CompilationCandidate) (record : Record)
    (c : CompilationCandidate) (rest : List CompilationCandidate)
    (hf : find_shaders fs ins = Except.ok cands)
    (hl : Record.try_load fs ins = Except.ok record)
    (h : check_against_record fs cands record = Except.ok (c :: rest)) :
    run fs ins = runMain fs ins record (c :: rest) := by
  unfold run
  simp only [hf, hl, h]

/-! ## Claim theorems -/

/-- C2: for every candidate list and change record, when the staleness
filter succeeds it selects a candidate exactly when the record has no entry
for the candidate's path, or the candidate's current on-disk modification
timestamp differs from the recorded one by any amount in either direction;
an equal timestamp never selects. -/
theorem check_against_record_mem_iff (fs : FS) (record : Record)
    (cands out : List CompilationCandidate)
    (h : check_against_record fs cands record = Except.ok out) :
    ∀ c ∈ cands, (c ∈ out ↔ staleCond fs record c) :=
  check_mem_iff_aux fs record cands out h

/-- C2 witness: on the concrete filesystem `fsChk` and record `recordW`,
the filter selects "s/b.vert" (recorded 1, on-disk 2) and the selection
agrees with the staleness condition. -/
theorem check_against_record_mem_iff_witness :
    candB ∈ [candB] ↔ staleCond fsChk recordW candB :=
  check_against_record_mem_iff fsChk recordW [candA, candB] [candB] rfl candB (by decide)

/-- C10: the staleness filter's output is an order-preserving subsequence of
its input. -/
theorem check_against_record_sublist (fs : FS) (record : Record)
    (cands out : List CompilationCandidate)
    (h : check_against_record fs cands record = Except.ok out) :
    List.Sublist out cands :=
  check_sublist_aux fs record cands out h

/-- C10 witness: the concrete filter run on `[candA, candB]` returns
`[candB]`, a subsequence of the input. -/
theorem check_against_record_sublist_witness :
    List.Sublist [candB] [candA, candB] :=
  check_against_record_sublist fsChk recordW [candA, candB] [candB] rfl

/-- C4: when the batch-compile step runs (collaborator init succeeded), it
returns exactly one outcome per input candidate, in input order, and the
outcome at every index is computed from that candidate alone — so a read or
compile failure on one candidate never prevents the remaining candidates
from being attempted. -/
theorem compile_outcomes (fs : FS) (compiler : Compiler)
    (to_compile : List CompilationCandidate)
    (results : List (Except Error CompileOutput))
    (hinit : fs.compilerInit = some compiler)
    (h : compile fs to_compile = some results) :
    results.length = to_compile.length ∧
    ∀ i (hi : i < to_compile.length) (hr : i < results.length),
      results.get ⟨i, hr⟩ = compileOne fs compiler (to_compile.get ⟨i, hi⟩) := by
  unfold compile at h
  rw [hinit] at h
  injection h with h
  subst h
  refine ⟨List.length_map _ _, ?_⟩
  intro i hi hr
  simp [List.getElem_map]

/-- C4 witness: compiling the concrete one-candidate batch yields exactly
one outcome. -/
theorem compile_outcomes_witness :
    ([Except.ok outA] : List (Except Error CompileOutput)).length = [candA].length :=
  (compile_outcomes fsW6 compOk [candA] [Except.ok outA] rfl rfl).1

/-- C7: whenever the staleness filter returns an empty set, `run` returns
`Ok` without initializing the compilation collaborator and without invoking
the compiler on any candidate. -/
theorem run_empty_stale_set (fs : FS) (ins : Instructions)
    (cands : List CompilationCandidate) (record : Record)
    (hf : find_shaders fs ins = Except.ok cands)
    (hl : Record.try_load fs ins = Except.ok record)
    (hc : check_against_record fs cands record = Except.ok []) :
    (run fs ins).result = RunOutcome.ok ∧ (run fs ins).inited = false ∧
    (run fs ins).invocations = 0 ∧ (run fs ins).outcomes = none := by
  rw [run_check_empty fs ins cands record hf hl hc]
  exact ⟨rfl, rfl, rfl, rfl⟩

/-- C7 witness: on the base fixture (no candidates at all, so an empty stale
set) `run` returns `Ok` with no collaborator activity. -/
theorem run_empty_stale_set_witness :
    (run fsBase insW).result = RunOutcome.ok ∧ (run fsBase insW).inited = false ∧
    (run fsBase insW).invocations = 0 ∧ (run fsBase insW).outcomes = none :=
  run_empty_stale_set fsBase insW [] ⟨[]⟩ rfl rfl rfl

/-- C9: if collaborator initialization fails when the non-empty stale set
reaches the compile step, the run aborts (the source `unwrap`s the failure,
a panic) before any candidate is attempted: no outcome list exists, no
collaborator invocation happens, nothing is written, and the record is not
persisted. -/
theorem run_compiler_init_failure (fs : FS) (ins : Instructions)
    (cands : List CompilationCandidate) (record : Record)
    (c : CompilationCandidate) (rest : List CompilationCandidate)
    (hf : find_shaders fs ins = Except.ok cands)
    (hl : Record.try_load fs ins = Except.ok record)
    (hc : check_against_record fs cands record = Except.ok (c :: rest))
    (hi : fs.compilerInit = none) :
    (run fs ins).result = RunOutcome.panicked ∧ (run fs ins).outcomes = none ∧
    (run fs ins).invocations = 0 ∧ (run fs ins).written = [] ∧
    (run fs ins).recordPersisted = none := by
  rw [run_main_eq fs ins cands record c rest hf hl hc]
  unfold runMain
  simp [hi]

/-- C9 witness: the concrete filesystem `fs9` has one stale candidate and a
failing collaborator init; the run aborts with no per-candidate activity. -/
theorem run_compiler_init_failure_witness :
    (run fs9 insW).result = RunOutcome.panicked ∧ (run fs9 insW).outcomes = none ∧
    (run fs9 insW).invocations = 0 ∧ (run fs9 insW).written = [] ∧
    (run fs9 insW).recordPersisted = none :=
  run_compiler_init_failure fs9 insW [candA] ⟨[]⟩ candA [] rfl rfl rfl rfl

/-- C3 counterexample: loading the change record CAN fail. On `fs3` the
record file exists but `File::open` fails, and `Record::try_load` propagates
the error to the caller instead of returning an empty record. -/
theorem try_load_can_fail_cex :
    Record.try_load fs3 insW = Except.error Error.IoErr := rfl

/-- C3 (amended): an absent record file or an existing-but-unparsable one
yields the empty record without surfacing the condition, and a parsable one
yields its contents; but when the file exists and opening it fails, the load
fails with an IO error surfaced to the caller. -/
theorem try_load_characterization (fs : FS) (ins : Instructions) :
    (fs.exists_ ins.record_path = false →
      Record.try_load fs ins = Except.ok ⟨[]⟩) ∧
    (fs.exists_ ins.record_path = true → fs.openOk ins.record_path = true →
      fs.parsed ins.record_path = none →
      Record.try_load fs ins = Except.ok ⟨[]⟩) ∧
    (∀ r, fs.exists_ ins.record_path = true → fs.openOk ins.record_path = true →
      fs.parsed ins.record_path = some r →
      Record.try_load fs ins = Except.ok r) ∧
    (fs.exists_ ins.record_path = true → fs.openOk ins.record_path = false →
      Record.try_load fs ins = Except.error Error.IoErr) := by
  refine ⟨?_, ?_, ?_, ?_⟩
  · intro h1
    unfold Record.try_load
    simp [h1]
  · intro h1 h2 h3
    unfold Record.try_load
    simp [h1, h2, h3]
  · intro r h1 h2 h3
    unfold Record.try_load
    simp [h1, h2, h3]
  · intro h1 h2
    unfold Record.try_load
    simp [h1, h2]

/-- C3 witness: the open-failure conjunct of the amended claim at the
concrete filesystem `fs3`. -/
theorem try_load_characterization_witness :
    Record.try_load fs3 insW = Except.error Error.IoErr :=
  (try_load_characterization fs3 insW).2.2.2 rfl rfl

/-- Distinct kinds that both have an extension have distinct extensions. -/
theorem kind_ext_inj (k1 k2 : ShaderKind) (ke1 ke2 : Component)
    (h1 : kind_ext k1 = Except.ok ke1) (h2 : kind_ext k2 = Except.ok ke2)
    (hne : k1 ≠ k2) : ke1 ≠ ke2 := by
  cases k1 <;> cases k2 <;>
    first
      | exact absurd rfl hne
      | exact Except.noConfusion h1
      | exact Except.noConfusion h2
      | (cases h1; cases h2; decide)

/-- C5: a successful output write's destination is the candidate's path
relative to the search root, re-rooted under the output root, with its
extension replaced by the kind-encoding extension `spv_<kind ext>`; hence
the same file written under two different supported kinds gets two distinct,
non-colliding destinations. (The candidate is a file strictly under the
search root, hence `loc ≠ ins.search_root`.) -/
theorem write_output_dest (fs : FS) (ins : Instructions) (loc : FPath)
    (k1 k2 : ShaderKind) (a1 a2 : Artifact) (d1 d2 : FPath)
    (hroot : loc ≠ ins.search_root)
    (h1 : write_output fs ins ⟨loc, k1, a1⟩ = WriteRes.ok d1)
    (h2 : write_output fs ins ⟨loc, k2, a2⟩ = WriteRes.ok d2) :
    (∃ ke tail, kind_ext k1 = Except.ok ke ∧ stripRoot loc ins.search_root = some tail ∧
      d1 = setPathExt (ins.output_root ++ tail) ("spv_".data ++ ke)) ∧
    (k1 ≠ k2 → d1 ≠ d2) := by
  unfold write_output at h1 h2
  cases hk1 : kind_ext k1 with
  | error e => simp only [hk1] at h1; cases h1
  | ok ke1 =>
  simp only [hk1] at h1
  cases hs : stripRoot loc ins.search_root with
  | none => simp only [hs] at h1; cases h1
  | some tail =>
  simp only [hs] at h1
  by_cases hw1 : fs.writeOk (setPathExt (ins.output_root ++ tail) ("spv_".data ++ ke1))
  case neg => simp only [if_neg hw1] at h1; cases h1
  case pos =>
  simp only [if_pos hw1] at h1
  injection h1 with hd1
  subst hd1
  refine ⟨⟨ke1, tail, rfl, rfl, rfl⟩, ?_⟩
  intro hkne
  cases hk2 : kind_ext k2 with
  | error e => simp only [hk2] at h2; cases h2
  | ok ke2 =>
  simp only [hk2, hs] at h2
  by_cases hw2 : fs.writeOk (setPathExt (ins.output_root ++ tail) ("spv_".data ++ ke2))
  case neg => simp only [if_neg hw2] at h2; cases h2
  case pos =>
  simp only [if_pos hw2] at h2
  injection h2 with hd2
  subst hd2
  intro heq
  have htail : tail ≠ [] := by
    intro ht
    apply hroot
    have happ := stripRoot_eq_append loc ins.search_root tail hs
    rw [happ, ht, List.append_nil]
  have hp : ins.output_root ++ tail ≠ [] := by
    intro hz
    exact htail (List.append_eq_nil.mp hz).2
  have hke : ke1 ≠ ke2 := kind_ext_inj k1 k2 ke1 ke2 hk1 hk2 hkne
  have he1 : ("spv_".data ++ ke1) ≠ [] := by
    rw [show "spv_".data = ['s', 'p', 'v', '_'] from rfl]
    simp
  have he2 : ("spv_".data ++ ke2) ≠ [] := by
    rw [show "spv_".data = ['s', 'p', 'v', '_'] from rfl]
    simp
  have hexts := setPathExt_ext_inj (ins.output_root ++ tail) _ _ hp he1 he2 heq
  exact hke (List.append_cancel_left hexts)

/-- C5 witness: the fixture file "s/a.vert" written as Vertex and as
Fragment gets the distinct destinations "o/a.spv_vert" and "o/a.spv_frag". -/
theorem write_output_dest_witness :
    (∃ ke tail, kind_ext ShaderKind.Vertex = Except.ok ke ∧
      stripRoot aVert insW.search_root = some tail ∧
      destA = setPathExt (insW.output_root ++ tail) ("spv_".data ++ ke)) ∧
    (ShaderKind.Vertex ≠ ShaderKind.Fragment → destA ≠ destAF) :=
  write_output_dest fsBase insW aVert ShaderKind.Vertex ShaderKind.Fragment
    [1] [1] destA destAF (by decide) rfl rfl

/-- C8: requesting any kind outside the supported set makes the whole run
fail with an unsupported-kind configuration error (for some requested
unsupported kind — the first in deduplicated request order) before any side
effect: nothing is written, the record is neither loaded into the trace nor
persisted, no outcome list is produced, and the collaborator is never
initialized or invoked. The glob-clean hypothesis pins the failure on the
kind rather than an unrelated discovery failure. -/
theorem run_unsupported_kind (fs : FS) (ins : Instructions) (k : ShaderKind)
    (hk : k ∈ ins.to_compile) (hunsup : ¬IsSupported k)
    (hclean : globClean fs ins.search_root) :
    ∃ k2, ¬IsSupported k2 ∧
      (run fs ins).result = RunOutcome.err (Error.UnsupportedKind k2) ∧
      (run fs ins).written = [] ∧ (run fs ins).recordPersisted = none ∧
      (run fs ins).outcomes = none ∧ (run fs ins).invocations = 0 ∧
      (run fs ins).inited = false := by
  obtain ⟨k2, hk2, hfind⟩ := find_shaders_list_unsupported fs ins.search_root hclean
    (deduplicate_kinds ins.to_compile) ⟨k, mem_deduplicate_kinds k ins.to_compile hk, hunsup⟩
  have hrun := run_find_err fs ins (Error.UnsupportedKind k2) hfind
  rw [hrun]
  exact ⟨k2, hk2, rfl, rfl, rfl, rfl, rfl, rfl⟩

/-- C8 witness: requesting Vertex plus the unsupported Geometry kind on the
base fixture aborts the run with an unsupported-kind error and no side
effects. -/
theorem run_unsupported_kind_witness :
    ∃ k2, ¬IsSupported k2 ∧
      (run fsBase ins8).result = RunOutcome.err (Error.UnsupportedKind k2) ∧
      (run fsBase ins8).written = [] ∧ (run fsBase ins8).recordPersisted = none ∧
      (run fsBase ins8).outcomes = none ∧ (run fsBase ins8).invocations = 0 ∧
      (run fsBase ins8).inited = false :=
  run_unsupported_kind fsBase ins8 ShaderKind.Geometry (by decide) (by decide)
    (fun _ => ⟨[], rfl, by simp⟩)

/-- C1 counterexample: on `fs1` the output write for the second candidate
fails after the first candidate compiled, was written and was logged; `run`
returns the IO error but `Record::write` is never reached: no record is
persisted for the run, so the success logged before the failure is lost. -/
theorem run_record_not_persisted_cex :
    (run fs1 insW).result = RunOutcome.err Error.IoErr ∧
    (run fs1 insW).written = [destA] ∧
    (run fs1 insW).recordPersisted = none :=
  ⟨rfl, rfl, rfl⟩

/-- C1 (amended): the change record is written back at most once per run,
only when the per-success loop finishes without error; a post-success
output-write or record-log error makes the run fail immediately — before
`Record::write` — so nothing is persisted that run and successes logged
before the failure are lost. -/
theorem run_write_error_no_persist (fs : FS) (ins : Instructions)
    (cands : List CompilationCandidate) (record : Record)
    (c : CompilationCandidate) (rest : List CompilationCandidate)
    (compiler : Compiler) (e : Error) (w : List FPath) (r : Record)
    (hf : find_shaders fs ins = Except.ok cands)
    (hl : Record.try_load fs ins = Except.ok record)
    (hc : check_against_record fs cands record = Except.ok (c :: rest))
    (hi : fs.compilerInit = some compiler)
    (hp : processResults fs ins ((c :: rest).map (compileOne fs compiler)) record
      = LoopRes.err e w r) :
    (run fs ins).result = RunOutcome.err e ∧
    (run fs ins).recordPersisted = none ∧
    (run fs ins).written = w := by
  rw [run_main_eq fs ins cands record c rest hf hl hc]
  unfold runMain
  simp only [hi, hp]
  exact ⟨trivial, trivial, trivial⟩

/-- C1 witness: the amended claim applied to the concrete `fs1` scenario. -/
theorem run_write_error_no_persist_witness :
    (run fs1 insW).result = RunOutcome.err Error.IoErr ∧
    (run fs1 insW).recordPersisted = none ∧
    (run fs1 insW).written = [destA] :=
  run_write_error_no_persist fs1 insW [candA, candB] ⟨[]⟩ candA [candB] compOk
    Error.IoErr [destA] ⟨[(aVert, 1)]⟩ rfl rfl rfl rfl rfl

/-- C6 counterexample: one stale candidate whose compilation fails, under
the best-effort policy: the first run reports `Ok`, no source file changes
in between, yet the second run invokes the collaborator once (the failed
candidate was never logged), not zero times. -/
theorem second_run_invocations_cex :
    (run fs6 insW).result = RunOutcome.ok ∧
    ¬((secondRun fs6 insW).invocations = 0) :=
  ⟨rfl, by decide⟩

/-- C6 (amended): if the first run returns `Ok` and every compile outcome it
produced succeeded, then the second run — on the same sources, seeing the
record the first run persisted — selects no candidate, performs zero
collaborator invocations, and never initializes the collaborator. -/
theorem second_run_zero_invocations (fs : FS) (ins : Instructions)
    (h1 : (run fs ins).result = RunOutcome.ok)
    (h2 : ∀ l, (run fs ins).outcomes = some l → ∀ x ∈ l, ∃ o, x = Except.ok o) :
    (secondRun fs ins).toCompile = [] ∧ (secondRun fs ins).invocations = 0 ∧
    (secondRun fs ins).inited = false := by
  cases hf : find_shaders fs ins with
  | error e => rw [run_find_err fs ins e hf] at h1; simp [errTrace] at h1
  | ok cands =>
  cases hl : Record.try_load fs ins with
  | error e => rw [run_load_err fs ins e cands hf hl] at h1; simp [errTrace] at h1
  | ok record =>
  cases hc : check_against_record fs cands record with
  | error e => rw [run_check_err fs ins e cands record hf hl hc] at h1; simp [errTrace] at h1
  | ok tc =>
  cases tc with
  | nil =>
    have hrun := run_check_empty fs ins cands record hf hl hc
    unfold secondRun
    rw [hrun]
    exact ⟨rfl, rfl, rfl⟩
  | cons c rest =>
    have hrun := run_main_eq fs ins cands record c rest hf hl hc
    rw [hrun] at h1
    unfold runMain at h1
    cases hi : fs.compilerInit with
    | none => simp [hi] at h1
    | some compiler =>
    simp only [hi] at h1
    cases hp : processResults fs ins ((c :: rest).map (compileOne fs compiler)) record with
    | panicked w r => simp only [hp] at h1; cases h1
    | err e w r => simp only [hp] at h1; cases h1
    | ok w r2 =>
    simp only [hp] at h1
    cases hw : Record.write fs ins r2 with
    | error e => simp only [hw] at h1; cases h1
    | ok u =>
    have hall : ∀ x ∈ (c :: rest).map (compileOne fs compiler), ∃ o, x = Except.ok o := by
      apply h2
      rw [hrun]
      unfold runMain
      simp only [hi, hp, hw]
      cases hce : collectErrors ((c :: rest).map (compileOne fs compiler)) with
      | nil => rfl
      | cons e0 es =>
        simp only [hce]
        split <;> rfl
    have hrp : (run fs ins).recordPersisted = some r2 := by
      rw [hrun]
      unfold runMain
      simp only [hi, hp, hw]
      cases hce : collectErrors ((c :: rest).map (compileOne fs compiler)) with
      | nil => rfl
      | cons e0 es =>
        simp only [hce]
        split <;> rfl
    have hfresh : ∀ c2 ∈ cands,
        ∃ t, lookupT r2.modified_times c2.location = some t ∧
          fs.mtime c2.location = some t := by
      intro c2 hc2
      by_cases hmem : c2 ∈ (c :: rest)
      · have hloc := mem_okLocs_of_all_ok fs compiler (c :: rest) hall c2 hmem
        obtain ⟨t, hmt, hlk⟩ := processResults_lookup_in fs ins
          ((c :: rest).map (compileOne fs compiler)) record w r2 hp c2.location hloc
        exact ⟨t, hlk, hmt⟩
      · obtain ⟨t, hlk, hmt⟩ :=
          check_fresh_of_not_mem fs record cands (c :: rest) hc c2 hc2 hmem
        by_cases hloc : c2.location ∈ okLocs ((c :: rest).map (compileOne fs compiler))
        · obtain ⟨t2, hmt2, hlk2⟩ := processResults_lookup_in fs ins
            ((c :: rest).map (compileOne fs compiler)) record w r2 hp c2.location hloc
          exact ⟨t2, hlk2, hmt2⟩
        · have hsame := processResults_lookup_notin fs ins
            ((c :: rest).map (compileOne fs compiler)) record w r2 hp c2.location hloc
          exact ⟨t, hsame.trans hlk, hmt⟩
    unfold secondRun
    simp only [hrp]
    have hf2 : find_shaders (afterRun fs ins r2) ins = Except.ok cands := by
      rw [find_shaders_glob_eq (afterRun fs ins r2) fs rfl ins]
      exact hf
    have hl2 : Record.try_load (afterRun fs ins r2) ins = Except.ok r2 := by
      unfold Record.try_load afterRun
      simp
    have hc2 : check_against_record (afterRun fs ins r2) cands r2 = Except.ok [] := by
      rw [check_mtime_eq (afterRun fs ins r2) fs rfl r2]
      exact check_nil_of_fresh fs r2 cands hfresh
    rw [run_check_empty (afterRun fs ins r2) ins cands r2 hf2 hl2 hc2]
    exact ⟨rfl, rfl, rfl⟩

/-- C6 witness: the amended claim on the all-success fixture `fsW6`: the
second run selects nothing and never touches the collaborator. -/
theorem second_run_zero_invocations_witness :
    (secondRun fsW6 insW).toCompile = [] ∧ (secondRun fsW6 insW).invocations = 0 ∧
    (secondRun fsW6 insW).inited = false :=
  second_run_zero_invocations fsW6 insW rfl (by
    intro l hl x hx
    injection hl with h
    subst h
    simp only [List.map_cons, List.map_nil, List.mem_singleton] at hx
    exact ⟨outA, hx.trans rfl⟩)

end Wrangler
